import Mathlib

/-!
# Verification of the GooglePay_Analysis extraction / aggregation / filtering core

This file is a shallow embedding of the core of `crewai_app.py`:

* `GPPayAnalyzer.parse_html_content` (lines 144-195): per-block regex field
  extraction.  The BeautifulSoup step (locating the `outer-cell.*mdl-shadow`
  blocks and the nested `mdl-typography--body-1` text element and calling
  `get_text(strip=True)`) is a third-party HTML library; a document is
  therefore modelled as the list of located candidate blocks, each carrying
  the optional stripped text of its nested text element.  Everything from the
  regex matching onwards is translated from the source.
* `analyze_transaction_data` (lines 56-94): the aggregation tool.  Amounts
  (Python floats) are modelled as rationals; the pandas reductions used by
  the claims (`sum`, `mean`, `len`, `min`/`max` over the date strings) are
  modelled directly; the merchant/month/method breakdowns are not needed by
  any claim and are omitted from the modelled summary record.
* `GPPayAnalyzer.filter_by_timeframe` (lines 283-304): the timeframe filter.
  Python's `sorted(..., key=..., reverse=True)` is a stable sort by the key
  in descending order; it is modelled by `List.insertionSort` with the
  relation "date ≥", which is stable in the same sense, and a stable sort by
  a total preorder is extensionally unique.

The four regular expressions of `parse_html_content` are embedded via a small
backtracking engine (`mats`) that enumerates, in exactly Python's
backtracking order (leftmost start position; alternation left first; greedy
repetition longest first; lazy repetition shortest first), the possible
(rest-of-input, captures) outcomes of a pattern.  All repetitions occurring
in the four patterns are repetitions of single-character classes, so the
engine only needs that shape.  `re.search` is `searchA`: the head outcome at
the leftmost start position that has any outcome.
-/

/-- Python `\s` (ASCII range; the texts involved are ASCII apart from `₹`). -/
def pySpace (c : Char) : Bool :=
  c == ' ' || c == '\t' || c == '\n' || c == '\r' || c == '\x0b' || c == '\x0c'

/-- Python `\d` (ASCII digits). -/
def pyDigit (c : Char) : Bool := c.isDigit

/-- The regex class `[A-Za-z]`. -/
def azAZ (c : Char) : Bool := ('A' ≤ c && c ≤ 'Z') || ('a' ≤ c && c ≤ 'z')

/-- The regex class `[0-9,]` of the amount pattern. -/
def digitComma (c : Char) : Bool := c.isDigit || c == ','

/-- Regex `.` without DOTALL: any character except newline. -/
def notNL (c : Char) : Bool := c != '\n'

/-- The regex class `[A-Za-z0-9 \-&()/.]` of the payment-method pattern. -/
def methodCls (c : Char) : Bool :=
  azAZ c || c.isDigit || c == ' ' || c == '-' || c == '&' || c == '(' ||
    c == ')' || c == '/' || c == '.'

/-- The regex class `[Xx]` of the payment-method pattern. -/
def isXx (c : Char) : Bool := c == 'X' || c == 'x'

/-- Captured groups: group number paired with the captured characters. -/
abbrev Caps := List (Nat × List Char)

/-- Regular expressions as they occur in `parse_html_content`: literals,
alternation, optional part, capture groups, the `$` anchor, and greedy/lazy
repetitions of single-character classes. -/
inductive RE where
  | lit (cs : List Char)
  | seq (a b : RE)
  | alt (a b : RE)
  | opt (a : RE)
  | plusG (p : Char → Bool)
  | starG (p : Char → Bool)
  | plusL (p : Char → Bool)
  | repN (p : Char → Bool) (n : Nat)
  | rep1to2 (p : Char → Bool)
  | grp (i : Nat) (a : RE)
  | eos

/-- Length of the maximal run of characters satisfying `p` at the head. -/
def runLen (p : Char → Bool) (s : List Char) : Nat := (s.takeWhile p).length

/-- All (rest-of-input, captures) outcomes of matching `e` at the head of
`s`, in Python's backtracking order: the head of the list is the outcome the
backtracking matcher commits to. -/
def mats : RE → List Char → Caps → List (List Char × Caps)
  | .lit cs, s, caps => if cs.isPrefixOf s then [(s.drop cs.length, caps)] else []
  | .seq a b, s, caps => (mats a s caps).flatMap (fun x => mats b x.1 x.2)
  | .alt a b, s, caps => mats a s caps ++ mats b s caps
  | .opt a, s, caps => mats a s caps ++ [(s, caps)]
  | .plusG p, s, caps =>
      (List.range (runLen p s)).map (fun j => (s.drop (runLen p s - j), caps))
  | .starG p, s, caps =>
      (List.range (runLen p s + 1)).map (fun j => (s.drop (runLen p s - j), caps))
  | .plusL p, s, caps =>
      (List.range (runLen p s)).map (fun j => (s.drop (j + 1), caps))
  | .repN p n, s, caps => if n ≤ runLen p s then [(s.drop n, caps)] else []
  | .rep1to2 p, s, caps =>
      if 2 ≤ runLen p s then [(s.drop 2, caps), (s.drop 1, caps)]
      else if 1 ≤ runLen p s then [(s.drop 1, caps)] else []
  | .grp i a, s, caps =>
      (mats a s caps).map (fun x => (x.1, x.2 ++ [(i, s.take (s.length - x.1.length))]))
  | .eos, s, caps => if s = [] || s = ['\n'] then [(s, caps)] else []

/-- Python `re.search`: try start positions left to right; at the first position
where the pattern has any outcome, commit to the first outcome's captures. -/
def searchA (e : RE) : List Char → Option Caps
  | [] =>
    match mats e [] [] with
    | x :: _ => some x.2
    | [] => none
  | c :: s' =>
    match mats e (c :: s') [] with
    | x :: _ => some x.2
    | [] => searchA e s'

/-- Python `match.group(i)`. -/
def capGet (caps : Caps) (i : Nat) : Option (List Char) :=
  (caps.find? (fun x => x.1 == i)).map (·.2)

/-- The search `re.search(r'₹\s*([0-9,]+(?:\.[0-9]+)?)', text)`  (line 161). -/
def amountRE : RE :=
  .seq (.lit ['₹']) (.seq (.starG pySpace)
    (.grp 1 (.seq (.plusG digitComma) (.opt (.seq (.lit ['.']) (.plusG pyDigit))))))

/-- The search `re.search(r'to\s+(.+?)(?:\s+using|\s+on)', text)`  (line 162). -/
def recipientRE : RE :=
  .seq (.lit "to".data) (.seq (.plusG pySpace)
    (.seq (.grp 1 (.plusL notNL))
      (.alt (.seq (.plusG pySpace) (.lit "using".data))
            (.seq (.plusG pySpace) (.lit "on".data)))))

/-- The search `re.search(r'(\d{1,2})\s+([A-Za-z]{3})\s+(\d{4})', text)`  (line 165). -/
def dateRE : RE :=
  .seq (.grp 1 (.rep1to2 pyDigit)) (.seq (.plusG pySpace)
    (.seq (.grp 2 (.repN azAZ 3)) (.seq (.plusG pySpace) (.grp 3 (.repN pyDigit 4)))))

/-- The search `re.search(r'using\s+([A-Za-z0-9 \-&()/.]+?)(?:\s+[Xx]+|\s*$)', text)`  (line 166). -/
def methodRE : RE :=
  .seq (.lit "using".data) (.seq (.plusG pySpace)
    (.seq (.grp 1 (.plusL methodCls))
      (.alt (.seq (.plusG pySpace) (.plusG isXx))
            (.seq (.starG pySpace) .eos))))

/-- Python `str.strip()`: drop whitespace at both ends. -/
def pyStrip (cs : List Char) : List Char :=
  ((cs.dropWhile pySpace).reverse.dropWhile pySpace).reverse

/-- Numeric value of a run of decimal digits. -/
def digitsVal (cs : List Char) : Nat :=
  cs.foldl (fun acc c => acc * 10 + (c.toNat - '0'.toNat)) 0

/-- Success condition of Python `float(s)` on the strings reachable here: an
optional integer part and an optional `.`-separated fractional part, both
decimal-digit runs, with at least one digit overall.  Anything else — in
particular the empty string left after stripping a comma-only amount token —
raises `ValueError`. -/
def pyFloatOk (cs : List Char) : Bool :=
  let intPart := cs.takeWhile pyDigit
  match cs.drop intPart.length with
  | [] => !intPart.isEmpty
  | '.' :: frac => frac.all pyDigit && (!intPart.isEmpty || !frac.isEmpty)
  | _ => false

/-- The integer-part digits of a float token. -/
def intDigits (cs : List Char) : List Char := cs.takeWhile pyDigit

/-- The fractional-part digits of a float token (empty when there is none). -/
def fracDigits (cs : List Char) : List Char :=
  match cs.drop (intDigits cs).length with
  | '.' :: frac => frac
  | _ => []

/-- Value of Python `float(s)` when `pyFloatOk` holds.  Float values are
modelled as exact rationals (every amount in the claims is exactly
representable as an IEEE double, so no rounding is lost). -/
def pyFloatVal (cs : List Char) : ℚ :=
  (digitsVal (intDigits cs) : ℚ) +
    (digitsVal (fracDigits cs) : ℚ) / (10 : ℚ) ^ (fracDigits cs).length

/-- Python `float(s)` with `ValueError` as `none`. -/
def pyFloat (cs : List Char) : Option ℚ :=
  if pyFloatOk cs then some (pyFloatVal cs) else none

/-- Month number of a three-letter abbreviation, matched case-insensitively
(CPython's `_strptime` lowercases both sides; C locale Jan..Dec). -/
def monthOfAbbr (cs : List Char) : Option Nat :=
  let l : List Char := cs.map Char.toLower
  if l = "jan".data then some 1 else if l = "feb".data then some 2
  else if l = "mar".data then some 3 else if l = "apr".data then some 4
  else if l = "may".data then some 5 else if l = "jun".data then some 6
  else if l = "jul".data then some 7 else if l = "aug".data then some 8
  else if l = "sep".data then some 9 else if l = "oct".data then some 10
  else if l = "nov".data then some 11 else if l = "dec".data then some 12
  else none

/-- Gregorian leap year (as used by `datetime`). -/
def isLeap (y : Nat) : Bool := y % 4 == 0 && (y % 100 != 0 || y % 400 == 0)

/-- Days in a month (as used by `datetime`). -/
def daysInMonth (y m : Nat) : Nat :=
  if m = 2 then (if isLeap y then 29 else 28)
  else if m = 4 ∨ m = 6 ∨ m = 9 ∨ m = 11 then 30 else 31

/-- Python `datetime.strptime(f"{day} {month} {year}", "%d %b %Y")` (line 178) on
the strings produced by the date regex (`day` is 1-2 digits, `month` is 3
letters, `year` is 4 digits): `%d` only accepts values 1..31, `%b` is a
case-insensitive month abbreviation, and the resulting `datetime` requires
`day ≤ daysInMonth` and `year ≥ 1`; any failure raises `ValueError`, which
line 180 catches (`continue  # Skip invalid dates`). -/
def strptime_d_b_Y (day mon year : List Char) : Option (Nat × Nat × Nat) :=
  match monthOfAbbr mon with
  | none => none
  | some m =>
    if 1 ≤ digitsVal day ∧ digitsVal day ≤ 31 ∧
       digitsVal day ≤ daysInMonth (digitsVal year) m ∧ 1 ≤ digitsVal year
    then some (digitsVal year, m, digitsVal day) else none

/-- Zero-pad a numeral to two digits. -/
def pad2 (n : Nat) : String := if n < 10 then "0" ++ toString n else toString n

/-- Zero-pad a numeral to four digits. -/
def pad4 (n : Nat) : String :=
  if n < 10 then "000" ++ toString n else if n < 100 then "00" ++ toString n
  else if n < 1000 then "0" ++ toString n else toString n

/-- Python `date_obj.strftime("%Y-%m-%d")` (line 179): the normalized ISO date. -/
def fmtISO (y m d : Nat) : String := pad4 y ++ "-" ++ pad2 m ++ "-" ++ pad2 d

/-- A valid calendar date (what `datetime(year, month, day)` accepts, years
capped at four digits as produced by the date regex). -/
def ValidDate (y m d : Nat) : Prop :=
  1 ≤ y ∧ 1 ≤ m ∧ m ≤ 12 ∧ 1 ≤ d ∧ d ≤ daysInMonth y m

/-- One transaction record as appended at lines 183-189 of the source. -/
structure Txn where
  amount : ℚ
  recipient : String
  date : String
  payment_method : String
  id : String
deriving DecidableEq, Repr

/-- One candidate transaction block, i.e. one element of
`soup.find_all('div', class_=re.compile(r'outer-cell.*mdl-shadow'))`:
`mainText` is `main_text.get_text(strip=True)` of the nested
`mdl-typography--body-1` element, or `none` when that element is absent
(line 154-156).  The BeautifulSoup tree walk itself is third-party library
code, so a document is modelled as the list of blocks it yields. -/
structure Block where
  mainText : Option String
deriving DecidableEq, Repr

/-- Python `match.group(1)` of a search, as used for each of the four patterns. -/
def searchCap (e : RE) (i : Nat) (t : String) : Option (List Char) :=
  (searchA e t.data).bind (capGet · i)

/-- The token `amount_match.group(1).replace(',', '')` (line 169). -/
def amountTok (ga : List Char) : List Char := ga.filter (fun c => !(c == ','))

/-- The field `method_match.group(1).strip() if method_match else "UPI"` (line 174). -/
def methodField (text : String) : String :=
  match searchCap methodRE 1 text with
  | some g => ⟨pyStrip g⟩
  | none => "UPI"

/-- The body of the `for i, block in enumerate(blocks)` loop (lines 152-192)
for one block: `none` models both the explicit skips (`continue`) and the
per-block `except Exception: continue`. -/
def processBlock (i : Nat) (b : Block) : Option Txn :=
  match b.mainText with
  | none => none
  | some text =>
    match searchCap amountRE 1 text, searchCap recipientRE 1 text,
          searchCap dateRE 1 text, searchCap dateRE 2 text, searchCap dateRE 3 text with
    | some ga, some gr, some gd, some gm, some gy =>
      -- amount = float(amount_match.group(1).replace(',', ''))
      if pyFloatOk (amountTok ga) then
        match strptime_d_b_Y gd gm gy with
        | none => none  -- except ValueError: continue  (skip invalid dates)
        | some (y, m, d) =>
          some { amount := pyFloatVal (amountTok ga), recipient := ⟨pyStrip gr⟩,
                 date := fmtISO y m d, payment_method := methodField text,
                 id := "tx_" ++ toString i }
      else none  -- float() raised ValueError; caught by the per-block except
    | _, _, _, _, _ => none  -- `if amount_match and recipient_match and date_match`

/-- The method `GPPayAnalyzer.parse_html_content` (lines 144-195) on the located blocks:
each block contributes at most one record, in block order, with positional
ids from `enumerate`. -/
def parse_html_content (blocks : List Block) : List Txn :=
  blocks.enum.filterMap (fun x => processBlock x.1 x.2)

/-- The analyzer's only state: `self.transactions` (line 98). -/
structure GPPayAnalyzer where
  transactions : List Txn
deriving DecidableEq, Repr

/-- The method call `analyzer.parse_html_content(...)`: returns the records
and fully replaces the held batch (line 194). -/
def GPPayAnalyzer.parseHtmlContent (a : GPPayAnalyzer) (blocks : List Block) :
    List Txn × GPPayAnalyzer :=
  (parse_html_content blocks, { a with transactions := parse_html_content blocks })

/-- The claim-relevant fields of the JSON summary built at lines 78-89:
`total_spend = df['amount'].sum()`, `average_transaction =
df['amount'].mean()`, `transaction_count = len(df)` and `date_range =
(df['date'].min(), df['date'].max())`.  The merchant / monthly / method
breakdowns also present in the JSON are not referenced by any claim and are
not modelled. -/
structure AnalysisSummary where
  total_spend : ℚ
  average_transaction : ℚ
  transaction_count : Nat
  date_range_start : String
  date_range_end : String
deriving DecidableEq

/-- Result of the `analyze_transaction_data` tool (lines 56-94): either the
explicit empty marker `"No transactions to analyze"` (line 64) or the
statistics record. -/
inductive AnalysisResult where
  | noTransactions
  | ok (s : AnalysisSummary)
deriving DecidableEq

/-- Python/pandas string comparison: lexicographic by code point. -/
def listLe : List Char → List Char → Bool
  | [], _ => true
  | _ :: _, [] => false
  | a :: as, b :: bs => if a < b then true else if b < a then false else listLe as bs

/-- The tool `analyze_transaction_data` (lines 56-94) on the already-decoded record
list (the JSON decoding step is plumbing around the same data).
`df['date'].min()` / `.max()` compare the ISO date strings lexicographically
by code point (`listLe`). -/
def analyze_transaction_data (data : List Txn) : AnalysisResult :=
  match data with
  | [] => .noTransactions  -- if len(df) == 0: return "No transactions to analyze"
  | d :: ds =>
    let amounts := (d :: ds).map Txn.amount
    .ok { total_spend := amounts.sum
          average_transaction := amounts.sum / ((d :: ds).length : ℚ)
          transaction_count := (d :: ds).length
          date_range_start :=
            ds.foldl (fun acc x => if listLe acc.data x.date.data then acc else x.date) d.date
          date_range_end :=
            ds.foldl (fun acc x => if listLe acc.data x.date.data then x.date else acc) d.date }

/-- The descending-date ordering used by
`sorted(self.transactions, key=lambda x: x['date'], reverse=True)`. -/
def dateGE (a b : Txn) : Prop := b.date ≤ a.date

instance : DecidableRel dateGE := fun a b => inferInstanceAs (Decidable (b.date ≤ a.date))

instance : IsTotal Txn dateGE := ⟨fun a b => le_total b.date a.date⟩

instance : IsTrans Txn dateGE := ⟨fun _ _ _ h1 h2 => le_trans h2 h1⟩

/-- The call `sorted(self.transactions, key=lambda x: x['date'], reverse=True)`
(line 292).  Python's `sorted` is a stable sort; with `reverse=True` it keeps
the original relative order of equal keys while ordering keys descendingly.
`List.insertionSort dateGE` is stable in the same sense (`orderedInsert`
places the inserted, originally-earlier element before any equal key), and a
stable sort by a total preorder is extensionally unique, so the two agree. -/
def sortDesc (l : List Txn) : List Txn := List.insertionSort dateGE l

/-- Python's substring containment `needle in hay`. -/
def subOcc : List Char → List Char → Bool
  | n, [] => n.isEmpty
  | n, h :: t => n.isPrefixOf (h :: t) || subOcc n t

/-- Python `needle in hay` on strings. -/
def strContains (hay needle : String) : Bool := subOcc needle.data hay.data

/-- Python `str.lower()` (ASCII). -/
def lowerStr (s : String) : String := ⟨s.data.map Char.toLower⟩

/-- The method `GPPayAnalyzer.filter_by_timeframe` (lines 283-304), with the held
`self.transactions` passed explicitly. -/
def filter_by_timeframe (transactions : List Txn) (timeframe : String) : List Txn :=
  if timeframe = "all" then transactions
  else if transactions = [] then []
  else
    let sorted_txns := sortDesc transactions
    if strContains (lowerStr timeframe) "month" then
      if strContains timeframe "three" || strContains timeframe "3" then
        sorted_txns.take 90
      else sorted_txns.take 30
    else if strContains (lowerStr timeframe) "week" then sorted_txns.take 7
    else if strContains (lowerStr timeframe) "year" then sorted_txns.take 365
    else sorted_txns.take 30

/-- The method call `analyzer.filter_by_timeframe(tf)`: the method reads
`self.transactions` and never assigns it, so the state is returned
unchanged. -/
def GPPayAnalyzer.filterByTimeframe (a : GPPayAnalyzer) (timeframe : String) :
    List Txn × GPPayAnalyzer :=
  (filter_by_timeframe a.transactions timeframe, a)

/-- The window size of each non-`"all"` branch of `filter_by_timeframe`. -/
def windowSize (timeframe : String) : Nat :=
  if strContains (lowerStr timeframe) "month" then
    if strContains timeframe "three" || strContains timeframe "3" then 90 else 30
  else if strContains (lowerStr timeframe) "week" then 7
  else if strContains (lowerStr timeframe) "year" then 365
  else 30

/-- Denotational matching: `MatchesC e u rest Δ` means pattern `e` can
consume exactly `u` when followed by `rest`, producing capture list `Δ`
(the `rest` parameter is needed because `$` constrains what follows). -/
inductive MatchesC : RE → List Char → List Char → Caps → Prop where
  | litM (cs rest : List Char) : MatchesC (.lit cs) cs rest []
  | seqM {a b : RE} {u v rest : List Char} {ca cb : Caps} :
      MatchesC a u (v ++ rest) ca → MatchesC b v rest cb →
      MatchesC (.seq a b) (u ++ v) rest (ca ++ cb)
  | altL {a b : RE} {u rest : List Char} {c : Caps} :
      MatchesC a u rest c → MatchesC (.alt a b) u rest c
  | altR {a b : RE} {u rest : List Char} {c : Caps} :
      MatchesC b u rest c → MatchesC (.alt a b) u rest c
  | optS {a : RE} {u rest : List Char} {c : Caps} :
      MatchesC a u rest c → MatchesC (.opt a) u rest c
  | optN {a : RE} (rest : List Char) : MatchesC (.opt a) [] rest []
  | plusGM {p : Char → Bool} (u rest : List Char) :
      u ≠ [] → (∀ c ∈ u, p c = true) → MatchesC (.plusG p) u rest []
  | starGM {p : Char → Bool} (u rest : List Char) :
      (∀ c ∈ u, p c = true) → MatchesC (.starG p) u rest []
  | plusLM {p : Char → Bool} (u rest : List Char) :
      u ≠ [] → (∀ c ∈ u, p c = true) → MatchesC (.plusL p) u rest []
  | repNM {p : Char → Bool} {n : Nat} (u rest : List Char) :
      u.length = n → (∀ c ∈ u, p c = true) → MatchesC (.repN p n) u rest []
  | rep12M {p : Char → Bool} (u rest : List Char) :
      u.length = 1 ∨ u.length = 2 → (∀ c ∈ u, p c = true) →
      MatchesC (.rep1to2 p) u rest []
  | grpM {i : Nat} {a : RE} {u rest : List Char} {c : Caps} :
      MatchesC a u rest c → MatchesC (.grp i a) u rest (c ++ [(i, u)])
  | eosM (rest : List Char) : rest = [] ∨ rest = ['\n'] → MatchesC .eos [] rest []

/-- The three-sentence document of the spec's acceptance test, each sentence
inside a recognized block. -/
def docThree : List Block :=
  [⟨some "You paid ₹150.00 to Swiggy using HDFC Bank on 15 Nov 2024"⟩,
   ⟨some "You paid ₹85.50 to Zomato using UPI on 14 Nov 2024"⟩,
   ⟨some "You paid ₹200.00 to Amazon using Credit Card on 13 Nov 2024"⟩]

def txA : Txn :=
  { amount := pyFloatVal "150.00".data, recipient := "Swiggy",
    date := "2024-11-15", payment_method := "HDFC Bank on 15 Nov 2024", id := "tx_0" }

def txB : Txn :=
  { amount := pyFloatVal "85.50".data, recipient := "Zomato",
    date := "2024-11-14", payment_method := "UPI on 14 Nov 2024", id := "tx_1" }

def txC : Txn :=
  { amount := pyFloatVal "200.00".data, recipient := "Amazon",
    date := "2024-11-13", payment_method := "Credit Card on 13 Nov 2024", id := "tx_2" }

/-- A block whose sentence carries a zero amount, three spaces after `to`,
and no `using`: the code emits a record with `amount = 0.0` and an empty
(stripped) recipient. -/
def docZero : List Block := [⟨some "You paid ₹0 to   on 15 Nov 2024"⟩]

def txZero : Txn :=
  { amount := pyFloatVal "0".data, recipient := "",
    date := "2024-11-15", payment_method := "UPI", id := "tx_0" }

/-- A block whose amount token is a lone comma: all three mandatory patterns
match and the date is valid, yet `float('')` raises and the block is
dropped. -/
def ceComma : String := "You paid ₹, to X on 15 Nov 2024"

/-- Recipient counterexample sentence: the whitespace-preceded `on` inside
`only` terminates the recipient capture. -/
def ceRam : String := "You paid ₹50 to Ram only Stores using UPI on 15 Nov 2024"

def txRam : Txn :=
  { amount := pyFloatVal "50".data, recipient := "Ram",
    date := "2024-11-15", payment_method := "UPI on 15 Nov 2024", id := "tx_0" }

/-- Payment-method counterexample sentence: the comma after `HDFC` is outside
the method character class, so the method pattern fails entirely and the
sentinel `UPI` is used although a `using` marker is present. -/
def ceBank : String := "You paid ₹50 to Alice using HDFC, Bank on 15 Nov 2024"

def txBank : Txn :=
  { amount := pyFloatVal "50".data, recipient := "Alice",
    date := "2024-11-15", payment_method := "UPI", id := "tx_0" }

/-- A masked-account sentence: the method capture stops before ` XXXX`. -/
def ceMask : String := "You paid ₹50 to Ank using HDFC Bank XXXX1234 on 15 Nov 2024"

def txMask : Txn :=
  { amount := pyFloatVal "50".data, recipient := "Ank",
    date := "2024-11-15", payment_method := "HDFC Bank", id := "tx_0" }

/-- Thirty-one records with distinct dates, for exercising the fixed-size
windows of the timeframe filter. -/
def recs31 : List Txn :=
  (List.range 31).map (fun i =>
    { amount := 1, recipient := "r", date := "2024-01-" ++ pad2 (i + 1),
      payment_method := "UPI", id := "tx_" ++ toString i })

/-- Whether `w` occurs at the head of `cs` as a whole word (followed by whitespace or
the end). -/
def wordAt (w cs : List Char) : Bool :=
  w.isPrefixOf cs &&
    (match cs.drop w.length with | [] => true | c :: _ => pySpace c)

/-- Scan for the first whole-word occurrence of `to` (preceded by start or
whitespace, followed by whitespace) and return what follows it. -/
def afterToWord : Bool → List Char → Option (List Char)
  | _, [] => none
  | atB, c :: rest =>
      if atB && wordAt "to".data (c :: rest) then some ((c :: rest).drop 2)
      else afterToWord (pySpace c) rest

/-- Collect characters up to the first whole-word occurrence of `using` or
`on` (preceded by whitespace, followed by whitespace or the end). -/
def upToStopWord : Bool → List Char → Option (List Char)
  | _, [] => none
  | atB, c :: rest =>
      if atB && (wordAt "using".data (c :: rest) || wordAt "on".data (c :: rest))
      then some []
      else (upToStopWord (pySpace c) rest).map (c :: ·)

/-- Modelled from claim C7's words: the recipient as *claimed* — the stripped
text strictly between the whitespace-delimited marker word `to` and the next
whitespace-delimited marker word `using` or `on` (markers anchored on whole
words, not substrings). -/
def recipientSpecWord (t : String) : Option String :=
  (afterToWord true t.data).bind fun tail =>
    (upToStopWord false tail).map fun mid => (⟨pyStrip mid⟩ : String)

/-- What follows the first occurrence of the substring `w`. -/
def afterSub : List Char → List Char → Option (List Char)
  | w, [] => if w.isEmpty then some [] else none
  | w, c :: rest =>
      if w.isPrefixOf (c :: rest) then some ((c :: rest).drop w.length)
      else afterSub w rest

/-- Collect characters up to the first whitespace-preceded `X`/`x`. -/
def upToXRun : Bool → List Char → List Char
  | _, [] => []
  | atB, c :: rest => if atB && isXx c then [] else c :: upToXRun (pySpace c) rest

/-- Modelled from claim C8's words: the payment method as *claimed* — the
text after the `using` marker, stopping before a whitespace-preceded run of
letter X's (the masked-account suffix, excluded) or the end of the string,
stripped. -/
def methodSpecClaim (t : String) : Option String :=
  (afterSub "using".data t.data).map fun tail =>
    (⟨pyStrip (upToXRun false tail)⟩ : String)

/-- Concrete evaluation helper for `pyFloatVal`: the character-level parts are
discharged by `decide`, leaving pure rational arithmetic. -/
theorem pyFloatVal_concrete (cs : List Char) (a b k : Nat)
    (h1 : digitsVal (intDigits cs) = a) (h2 : digitsVal (fracDigits cs) = b)
    (h3 : (fracDigits cs).length = k) :
    pyFloatVal cs = (a : ℚ) + (b : ℚ) / (10 : ℚ) ^ k := by
  rw [pyFloatVal, h1, h2, h3]

/-- Every non-`"all"` call is a `windowSize`-prefix of the stable
descending-date sort. -/
theorem filter_eq_take (transactions : List Txn) (timeframe : String)
    (h : timeframe ≠ "all") :
    filter_by_timeframe transactions timeframe =
      (sortDesc transactions).take (windowSize timeframe) := by
  rw [filter_by_timeframe, if_neg h, windowSize]
  by_cases he : transactions = []
  · subst he
    simp [sortDesc, List.insertionSort]
  · rw [if_neg he]
    by_cases h1 : strContains (lowerStr timeframe) "month" = true
    · rw [if_pos h1, if_pos h1]
      by_cases h2 : (strContains timeframe "three" || strContains timeframe "3") = true
      · rw [if_pos h2, if_pos h2]
      · rw [if_neg h2, if_neg h2]
    · rw [if_neg h1, if_neg h1]
      by_cases h3 : strContains (lowerStr timeframe) "week" = true
      · rw [if_pos h3, if_pos h3]
      · rw [if_neg h3, if_neg h3]
        by_cases h4 : strContains (lowerStr timeframe) "year" = true
        · rw [if_pos h4, if_pos h4]
        · rw [if_neg h4, if_neg h4]

/-- Characters of a prefix of the maximal `p`-run all satisfy `p`. -/
theorem take_runLen_all (p : Char → Bool) (s : List Char) (k : Nat)
    (h : k ≤ runLen p s) : ∀ c ∈ s.take k, p c := by
  induction s generalizing k with
  | nil => simp
  | cons a t ih =>
    cases k with
    | zero => simp
    | succ k' =>
      by_cases hp : p a
      · simp only [runLen, List.takeWhile_cons, hp, if_pos, List.length_cons] at h
        simp only [List.take_succ_cons, List.mem_cons]
        rintro c (rfl | hc)
        · exact hp
        · exact ih k' (Nat.le_of_succ_le_succ h) c hc
      · simp [runLen, List.takeWhile_cons, hp] at h

/-- The run length `runLen` is bounded by the length. -/
theorem runLen_le_length (p : Char → Bool) (s : List Char) : runLen p s ≤ s.length :=
  (List.takeWhile_sublist p).length_le

/-- Stability of `orderedInsert`: inserting `x` does not disturb the
subsequence of elements selected by `p`, provided `x` precedes (in the sort
order) every selected element whenever `x` is itself selected. -/
theorem filter_orderedInsert (p : Txn → Bool) (x : Txn) (l : List Txn)
    (h : ∀ b, p b = true → p x = true → dateGE x b) :
    (List.orderedInsert dateGE x l).filter p =
      if p x then x :: l.filter p else l.filter p := by
  induction l with
  | nil => cases hpx : p x <;> simp [List.orderedInsert, List.filter_cons, hpx]
  | cons b t ih =>
    rw [List.orderedInsert]
    by_cases hxb : dateGE x b
    · rw [if_pos hxb]
      cases hpx : p x <;> simp [List.filter_cons, hpx]
    · rw [if_neg hxb]
      by_cases hpx : p x = true
      · have hpb : ¬ p b = true := fun hpb => hxb (h b hpb hpx)
        simp [List.filter_cons, ih, hpx, hpb]
      · simp [List.filter_cons, ih, hpx]

/-- Stability of the descending sort: the `p`-selected subsequence is
untouched when all selected elements are mutually tied in the sort order. -/
theorem filter_sortDesc (p : Txn → Bool) (l : List Txn)
    (hp : ∀ a b, p a = true → p b = true → dateGE a b) :
    (sortDesc l).filter p = l.filter p := by
  induction l with
  | nil => rfl
  | cons a t ih =>
    rw [sortDesc, List.insertionSort, filter_orderedInsert p a _ (fun b hb ha => hp a b ha hb)]
    by_cases hpa : p a
    · simp [List.filter, hpa, ← ih, sortDesc]
    · simp [List.filter, hpa, ← ih, sortDesc]

/-- Inversion of a successful `processBlock`: every emitted record arises
from a block text on which all three mandatory patterns matched, the amount
token parsed, and the date triple validated. -/
theorem processBlock_inv (i : Nat) (b : Block) (r : Txn)
    (h : processBlock i b = some r) :
    ∃ text ga gr gd gm gy y m d,
      b.mainText = some text ∧
      searchCap amountRE 1 text = some ga ∧
      searchCap recipientRE 1 text = some gr ∧
      searchCap dateRE 1 text = some gd ∧
      searchCap dateRE 2 text = some gm ∧
      searchCap dateRE 3 text = some gy ∧
      pyFloatOk (amountTok ga) = true ∧
      strptime_d_b_Y gd gm gy = some (y, m, d) ∧
      r = { amount := pyFloatVal (amountTok ga),
            recipient := ⟨pyStrip gr⟩, date := fmtISO y m d,
            payment_method := methodField text,
            id := "tx_" ++ toString i } := by
  rw [processBlock] at h
  split at h
  · exact absurd h (by simp)
  next text htext =>
    split at h
    next ga gr gd gm gy ha hr hd1 hd2 hd3 =>
      split at h
      next hok =>
        split at h
        · exact absurd h (by simp)
        next y m d hstrp =>
          exact ⟨text, ga, gr, gd, gm, gy, y, m, d, htext, ha, hr, hd1, hd2, hd3, hok,
            hstrp, (Option.some_injective _ h).symm⟩
      · exact absurd h (by simp)
    · exact absurd h (by simp)

/-- Soundness of the engine: every enumerated outcome is a denotational
match of a prefix of the input, with the captures appended to the incoming
ones. -/
theorem mats_sound (e : RE) :
    ∀ (s : List Char) (caps0 : Caps) (out : List Char × Caps), out ∈ mats e s caps0 →
      ∃ u Δ, s = u ++ out.1 ∧ out.2 = caps0 ++ Δ ∧ MatchesC e u out.1 Δ := by
  induction e with
  | lit cs =>
    intro s caps0 out hm
    rw [mats] at hm
    split at hm
    next hpre =>
      simp only [List.mem_singleton] at hm
      subst hm
      obtain ⟨t, ht⟩ := List.isPrefixOf_iff_prefix.mp hpre
      refine ⟨cs, [], ?_, by simp, ?_⟩
      · simp only [← ht, List.drop_left]
      · exact .litM cs _
    next => simp at hm
  | seq a b iha ihb =>
    intro s caps0 out hm
    rw [mats] at hm
    rw [List.mem_flatMap] at hm
    obtain ⟨x, hx, hout⟩ := hm
    obtain ⟨u, da, hs1, hc1, hM1⟩ := iha s caps0 x hx
    obtain ⟨v, db, hs2, hc2, hM2⟩ := ihb x.1 x.2 out hout
    refine ⟨u ++ v, da ++ db, ?_, ?_, ?_⟩
    · rw [hs1, hs2, List.append_assoc]
    · rw [hc2, hc1, List.append_assoc]
    · exact .seqM (hs2 ▸ hM1) hM2
  | alt a b iha ihb =>
    intro s caps0 out hm
    rw [mats] at hm
    rcases List.mem_append.mp hm with hx | hx
    · obtain ⟨u, d, h1, h2, h3⟩ := iha s caps0 out hx
      exact ⟨u, d, h1, h2, .altL h3⟩
    · obtain ⟨u, d, h1, h2, h3⟩ := ihb s caps0 out hx
      exact ⟨u, d, h1, h2, .altR h3⟩
  | opt a iha =>
    intro s caps0 out hm
    rw [mats] at hm
    rcases List.mem_append.mp hm with hx | hx
    · obtain ⟨u, d, h1, h2, h3⟩ := iha s caps0 out hx
      exact ⟨u, d, h1, h2, .optS h3⟩
    · simp only [List.mem_singleton] at hx
      subst hx
      exact ⟨[], [], by simp, by simp, .optN s⟩
  | plusG p =>
    intro s caps0 out hm
    rw [mats] at hm
    simp only [List.mem_map, List.mem_range] at hm
    obtain ⟨j, hj, hout⟩ := hm
    subst hout
    have hle := runLen_le_length p s
    refine ⟨s.take (runLen p s - j), [], (List.take_append_drop _ s).symm, by simp, ?_⟩
    refine .plusGM _ _ ?_ (take_runLen_all p s _ (Nat.sub_le _ _))
    have : (s.take (runLen p s - j)).length = runLen p s - j := by
      rw [List.length_take]; omega
    intro hnil
    rw [hnil] at this
    simp at this
    omega
  | starG p =>
    intro s caps0 out hm
    rw [mats] at hm
    simp only [List.mem_map, List.mem_range] at hm
    obtain ⟨j, hj, hout⟩ := hm
    subst hout
    exact ⟨s.take (runLen p s + 1 - 1 - j), [], by
        have : runLen p s + 1 - 1 - j = runLen p s - j := by omega
        rw [this]; exact (List.take_append_drop _ s).symm,
      by simp, by
        have : runLen p s + 1 - 1 - j = runLen p s - j := by omega
        rw [this]
        exact .starGM _ _ (take_runLen_all p s _ (Nat.sub_le _ _))⟩
  | plusL p =>
    intro s caps0 out hm
    rw [mats] at hm
    simp only [List.mem_map, List.mem_range] at hm
    obtain ⟨j, hj, hout⟩ := hm
    subst hout
    have hle := runLen_le_length p s
    refine ⟨s.take (j + 1), [], (List.take_append_drop _ s).symm, by simp, ?_⟩
    refine .plusLM _ _ ?_ (take_runLen_all p s _ (by omega))
    have : (s.take (j + 1)).length = j + 1 := by rw [List.length_take]; omega
    intro hnil
    rw [hnil] at this
    simp at this
  | repN p n =>
    intro s caps0 out hm
    rw [mats] at hm
    split at hm
    next hn =>
      simp only [List.mem_singleton] at hm
      subst hm
      have hle := runLen_le_length p s
      refine ⟨s.take n, [], (List.take_append_drop _ s).symm, by simp, ?_⟩
      refine .repNM _ _ ?_ (take_runLen_all p s _ hn)
      rw [List.length_take]; omega
    next => simp at hm
  | rep1to2 p =>
    intro s caps0 out hm
    rw [mats] at hm
    have hle := runLen_le_length p s
    split at hm
    next h2 =>
      simp only [List.mem_cons, List.not_mem_nil, or_false] at hm
      rcases hm with hout | hout <;> subst hout
      · refine ⟨s.take 2, [], (List.take_append_drop _ s).symm, by simp, ?_⟩
        refine .rep12M _ _ (Or.inr ?_) (take_runLen_all p s _ h2)
        rw [List.length_take]; omega
      · refine ⟨s.take 1, [], (List.take_append_drop _ s).symm, by simp, ?_⟩
        refine .rep12M _ _ (Or.inl ?_) (take_runLen_all p s _ (by omega))
        rw [List.length_take]; omega
    next =>
      split at hm
      next h1 =>
        simp only [List.mem_singleton] at hm
        subst hm
        refine ⟨s.take 1, [], (List.take_append_drop _ s).symm, by simp, ?_⟩
        refine .rep12M _ _ (Or.inl ?_) (take_runLen_all p s _ h1)
        rw [List.length_take]; omega
      next => simp at hm
  | grp i a iha =>
    intro s caps0 out hm
    rw [mats] at hm
    simp only [List.mem_map] at hm
    obtain ⟨x, hx, hout⟩ := hm
    obtain ⟨u, d, h1, h2, h3⟩ := iha s caps0 x hx
    subst hout
    have hu : s.take (s.length - x.1.length) = u := by
      have : s.length - x.1.length = u.length := by
        rw [h1, List.length_append]; omega
      rw [this, h1, List.take_left]
    refine ⟨u, d ++ [(i, u)], h1, ?_, ?_⟩
    · simp only [hu, h2, List.append_assoc]
    · rw [hu]
      exact .grpM h3
  | eos =>
    intro s caps0 out hm
    rw [mats] at hm
    split at hm
    next hcond =>
      simp only [List.mem_singleton] at hm
      subst hm
      refine ⟨[], [], by simp, by simp, .eosM s ?_⟩
      revert hcond
      by_cases h0 : s = [] <;> by_cases h1 : s = ['\n'] <;> simp [h0, h1]
    next => simp at hm

/-- Soundness of `re.search`: a successful search decomposes the input as
(skipped characters) ++ (consumed match) ++ (rest), with a denotational
match producing exactly the returned captures. -/
theorem searchA_sound (e : RE) :
    ∀ (s : List Char) (caps : Caps), searchA e s = some caps →
      ∃ pre u rest Δ, s = pre ++ u ++ rest ∧ caps = Δ ∧ MatchesC e u rest Δ := by
  intro s
  induction s with
  | nil =>
    intro caps h
    rw [searchA] at h
    split at h
    next x tail hx =>
      cases h
      have hmem : x ∈ mats e [] [] := by rw [hx]; exact List.mem_cons_self x tail
      obtain ⟨u, d, h1, h2, h3⟩ := mats_sound e [] [] x hmem
      exact ⟨[], u, x.1, d, by simpa using h1, by simpa using h2, h3⟩
    next => exact absurd h (by simp)
  | cons c s' ih =>
    intro caps h
    rw [searchA] at h
    split at h
    next x tail hx =>
      cases h
      have hmem : x ∈ mats e (c :: s') [] := by rw [hx]; exact List.mem_cons_self x tail
      obtain ⟨u, d, h1, h2, h3⟩ := mats_sound e (c :: s') [] x hmem
      exact ⟨[], u, x.1, d, by simpa using h1, by simpa using h2, h3⟩
    next =>
      obtain ⟨pre, u, rest, d, h1, h2, h3⟩ := ih caps h
      exact ⟨c :: pre, u, rest, d, by simp [h1], h2, h3⟩

/-- Decomposition of a successful recipient search (`to\s+(.+?)(?:\s+using|\s+on)`):
the input splits as an arbitrary skipped part, the literal `to` substring,
a nonempty whitespace run, the captured group, a nonempty whitespace run and
a `using` or `on` substring — nothing requires either marker to be a whole
whitespace-delimited word. -/
theorem recipient_decomp (t : String) (g : List Char)
    (h : searchCap recipientRE 1 t = some g) :
    ∃ pre ws1 ws2 mk rest,
      t.data = pre ++ "to".data ++ ws1 ++ g ++ ws2 ++ mk ++ rest ∧
      ws1 ≠ [] ∧ (∀ c ∈ ws1, pySpace c = true) ∧
      g ≠ [] ∧ (∀ c ∈ g, notNL c = true) ∧
      ws2 ≠ [] ∧ (∀ c ∈ ws2, pySpace c = true) ∧
      (mk = "using".data ∨ mk = "on".data) := by
  rw [searchCap] at h
  cases hcaps : searchA recipientRE t.data with
  | none => rw [hcaps] at h; exact absurd h (by simp)
  | some caps =>
    rw [hcaps] at h
    simp only [Option.some_bind] at h
    obtain ⟨pre, u, rest, d, hsplit, hceq, hM⟩ := searchA_sound _ _ _ hcaps
    subst hceq
    rw [recipientRE] at hM
    cases hM with
    | seqM hlit hM2 =>
      cases hlit with
      | litM =>
        cases hM2 with
        | seqM hws1 hM3 =>
          cases hws1 with
          | plusGM _ _ hws1ne hws1all =>
            cases hM3 with
            | seqM hgrp hM4 =>
              cases hgrp with
              | grpM hin =>
                cases hin with
                | plusLM _ _ hgne hgall =>
                  cases hM4 with
                  | altL hA =>
                    cases hA with
                    | seqM hws2 hlit2 =>
                      cases hws2 with
                      | plusGM _ _ hws2ne hws2all =>
                        cases hlit2 with
                        | litM =>
                          rename_i w1 gg w2
                          have hg : gg = g := by simpa [capGet] using h
                          subst hg
                          refine ⟨pre, w1, w2, "using".data, rest, ?_, hws1ne, hws1all,
                            hgne, hgall, hws2ne, hws2all, Or.inl rfl⟩
                          rw [hsplit]; simp [List.append_assoc]
                  | altR hB =>
                    cases hB with
                    | seqM hws2 hlit2 =>
                      cases hws2 with
                      | plusGM _ _ hws2ne hws2all =>
                        cases hlit2 with
                        | litM =>
                          rename_i w1 gg w2
                          have hg : gg = g := by simpa [capGet] using h
                          subst hg
                          refine ⟨pre, w1, w2, "on".data, rest, ?_, hws1ne, hws1all,
                            hgne, hgall, hws2ne, hws2all, Or.inr rfl⟩
                          rw [hsplit]; simp [List.append_assoc]

/-- Decomposition of a successful payment-method search
(`using\s+([A-Za-z0-9 \-&()/.]+?)(?:\s+[Xx]+|\s*$)`): the captured method
text is drawn from the restricted character class and is terminated either
by a whitespace-preceded run of `X`/`x` characters or by (whitespace and)
the end of the string. -/
theorem method_decomp (t : String) (g : List Char)
    (h : searchCap methodRE 1 t = some g) :
    ∃ pre ws1 tail,
      t.data = pre ++ "using".data ++ ws1 ++ g ++ tail ∧
      ws1 ≠ [] ∧ (∀ c ∈ ws1, pySpace c = true) ∧
      g ≠ [] ∧ (∀ c ∈ g, methodCls c = true) ∧
      ((∃ ws2 xs rest2, tail = ws2 ++ xs ++ rest2 ∧ ws2 ≠ [] ∧
          (∀ c ∈ ws2, pySpace c = true) ∧ xs ≠ [] ∧ (∀ c ∈ xs, isXx c = true)) ∨
       (∃ ws2 rest2, tail = ws2 ++ rest2 ∧ (∀ c ∈ ws2, pySpace c = true) ∧
          (rest2 = [] ∨ rest2 = ['\n']))) := by
  rw [searchCap] at h
  cases hcaps : searchA methodRE t.data with
  | none => rw [hcaps] at h; exact absurd h (by simp)
  | some caps =>
    rw [hcaps] at h
    simp only [Option.some_bind] at h
    obtain ⟨pre, u, rest, d, hsplit, hceq, hM⟩ := searchA_sound _ _ _ hcaps
    subst hceq
    rw [methodRE] at hM
    cases hM with
    | seqM hlit hM2 =>
      cases hlit with
      | litM =>
        cases hM2 with
        | seqM hws1 hM3 =>
          cases hws1 with
          | plusGM _ _ hws1ne hws1all =>
            cases hM3 with
            | seqM hgrp hM4 =>
              cases hgrp with
              | grpM hin =>
                cases hin with
                | plusLM _ _ hgne hgall =>
                  cases hM4 with
                  | altL hA =>
                    cases hA with
                    | seqM hws2 hxs =>
                      cases hws2 with
                      | plusGM _ _ hws2ne hws2all =>
                        cases hxs with
                        | plusGM _ _ hxne hxall =>
                          rename_i w1 gg w2 xs
                          have hg : gg = g := by simpa [capGet] using h
                          subst hg
                          refine ⟨pre, w1, w2 ++ xs ++ rest, ?_, hws1ne, hws1all,
                            hgne, hgall, Or.inl ⟨w2, xs, rest, rfl, hws2ne, hws2all,
                              hxne, hxall⟩⟩
                          rw [hsplit]; simp [List.append_assoc]
                  | altR hB =>
                    cases hB with
                    | seqM hws2 heos =>
                      cases hws2 with
                      | starGM _ _ hws2all =>
                        cases heos with
                        | eosM _ hrest =>
                          rename_i w1 gg w2
                          have hg : gg = g := by simpa [capGet] using h
                          subst hg
                          refine ⟨pre, w1, w2 ++ rest, ?_, hws1ne, hws1all,
                            hgne, hgall, Or.inr ⟨w2, rest, rfl, hws2all, hrest⟩⟩
                          rw [hsplit]; simp [List.append_assoc]

theorem parse_docThree : parse_html_content docThree = [txA, txB, txC] := rfl

theorem txA_amount : txA.amount = 150 := by
  rw [txA, pyFloatVal_concrete _ 150 0 2 (by decide) (by decide) (by decide)]; norm_num

theorem txB_amount : txB.amount = 171 / 2 := by
  rw [txB, pyFloatVal_concrete _ 85 50 2 (by decide) (by decide) (by decide)]; norm_num

theorem txC_amount : txC.amount = 200 := by
  rw [txC, pyFloatVal_concrete _ 200 0 2 (by decide) (by decide) (by decide)]; norm_num

theorem parse_docZero : parse_html_content docZero = [txZero] := rfl

theorem txZero_amount : txZero.amount = 0 := by
  rw [txZero, pyFloatVal_concrete _ 0 0 0 (by decide) (by decide) (by decide)]; norm_num

theorem parse_ceRam : processBlock 0 ⟨some ceRam⟩ = some txRam := rfl

theorem parse_ceBank : processBlock 0 ⟨some ceBank⟩ = some txBank := rfl

theorem parse_ceMask : processBlock 0 ⟨some ceMask⟩ = some txMask := rfl

/-- Parsed float values are never negative: an unparseable amount is dropped
(`none`), never coerced — and a parsed one is a sum of nonnegative parts. -/
theorem pyFloatVal_nonneg (cs : List Char) : 0 ≤ pyFloatVal cs :=
  add_nonneg (Nat.cast_nonneg _)
    (div_nonneg (Nat.cast_nonneg _) (pow_nonneg (by norm_num) _))

theorem monthOfAbbr_range (cs : List Char) (m : Nat) (h : monthOfAbbr cs = some m) :
    1 ≤ m ∧ m ≤ 12 := by
  rw [monthOfAbbr] at h
  by_cases h1 : cs.map Char.toLower = "jan".data
  · rw [if_pos h1] at h; injection h with hv; omega
  · rw [if_neg h1] at h
    by_cases h2 : cs.map Char.toLower = "feb".data
    · rw [if_pos h2] at h; injection h with hv; omega
    · rw [if_neg h2] at h
      by_cases h3 : cs.map Char.toLower = "mar".data
      · rw [if_pos h3] at h; injection h with hv; omega
      · rw [if_neg h3] at h
        by_cases h4 : cs.map Char.toLower = "apr".data
        · rw [if_pos h4] at h; injection h with hv; omega
        · rw [if_neg h4] at h
          by_cases h5 : cs.map Char.toLower = "may".data
          · rw [if_pos h5] at h; injection h with hv; omega
          · rw [if_neg h5] at h
            by_cases h6 : cs.map Char.toLower = "jun".data
            · rw [if_pos h6] at h; injection h with hv; omega
            · rw [if_neg h6] at h
              by_cases h7 : cs.map Char.toLower = "jul".data
              · rw [if_pos h7] at h; injection h with hv; omega
              · rw [if_neg h7] at h
                by_cases h8 : cs.map Char.toLower = "aug".data
                · rw [if_pos h8] at h; injection h with hv; omega
                · rw [if_neg h8] at h
                  by_cases h9 : cs.map Char.toLower = "sep".data
                  · rw [if_pos h9] at h; injection h with hv; omega
                  · rw [if_neg h9] at h
                    by_cases h10 : cs.map Char.toLower = "oct".data
                    · rw [if_pos h10] at h; injection h with hv; omega
                    · rw [if_neg h10] at h
                      by_cases h11 : cs.map Char.toLower = "nov".data
                      · rw [if_pos h11] at h; injection h with hv; omega
                      · rw [if_neg h11] at h
                        by_cases h12 : cs.map Char.toLower = "dec".data
                        · rw [if_pos h12] at h; injection h with hv; omega
                        · rw [if_neg h12] at h
                          exact absurd h (by simp)

/-- Successful `strptime` only accepts real calendar dates. -/
theorem strptime_valid (day mon year : List Char) (y m d : Nat)
    (h : strptime_d_b_Y day mon year = some (y, m, d)) : ValidDate y m d := by
  rw [strptime_d_b_Y] at h
  split at h
  next => exact absurd h (by simp)
  next m0 hm =>
    split at h
    next hc =>
      obtain ⟨hc1, hc2, hc3, hc4⟩ := hc
      injection h with h
      rw [Prod.mk.injEq, Prod.mk.injEq] at h
      obtain ⟨hy, hmm, hd⟩ := h
      subst hy; subst hmm; subst hd
      obtain ⟨hm1, hm2⟩ := monthOfAbbr_range mon m0 hm
      exact ⟨hc4, hm1, hm2, hc1, hc3⟩
    next => exact absurd h (by simp)

/-- Claim C1, amended: every emitted record has a nonnegative amount (zero is
possible, e.g. from `₹0`) and a valid calendar date rendered in zero-padded
ISO form; an amount token that does not parse as a float drops the candidate
instead of contributing a record. -/
theorem claim_C1_amended :
    (∀ (blocks : List Block) (r : Txn), r ∈ parse_html_content blocks →
       0 ≤ r.amount ∧ ∃ y m d, ValidDate y m d ∧ r.date = fmtISO y m d) ∧
    (∀ (i : Nat) (b : Block) (text : String) (ga : List Char),
       b.mainText = some text → searchCap amountRE 1 text = some ga →
       pyFloatOk (amountTok ga) = false → processBlock i b = none) := by
  constructor
  · intro blocks r hr
    rw [parse_html_content, List.mem_filterMap] at hr
    obtain ⟨⟨i, b⟩, _, hpb⟩ := hr
    obtain ⟨text, ga, gr, gd, gm, gy, y, m, d, _, _, _, _, _, _, _, hstrp, hreq⟩ :=
      processBlock_inv i b r hpb
    subst hreq
    exact ⟨pyFloatVal_nonneg _, y, m, d, strptime_valid _ _ _ _ _ _ hstrp, rfl⟩
  · intro i b text ga htext hga hbad
    rw [processBlock]
    split
    · rfl
    next text' htext' =>
      rw [htext] at htext'
      injection htext' with he
      subst he
      split
      next ga' gr gd gm gy ha' hr' hd1 hd2 hd3 =>
        rw [hga] at ha'
        injection ha' with he2
        subst he2
        rw [if_neg (by rw [hbad]; exact Bool.false_ne_true)]
      next => rfl

/-- Claim C1 as frozen is false: on the document whose only block reads
`"You paid ₹0 to   on 15 Nov 2024"` the code emits a record with amount `0`
(not `> 0`) and an empty recipient. -/
theorem claim_C1_counterexample :
    ∃ r ∈ parse_html_content docZero, ¬(0 < r.amount) ∧ r.recipient = "" := by
  refine ⟨txZero, by rw [parse_docZero]; exact List.mem_singleton_self txZero, ?_, rfl⟩
  rw [txZero_amount]
  norm_num

theorem claim_C1_witness :
    txA ∈ parse_html_content docThree ∧ 0 ≤ txA.amount ∧
    (∃ y m d, ValidDate y m d ∧ txA.date = fmtISO y m d) ∧
    (⟨some ceComma⟩ : Block).mainText = some ceComma ∧
    searchCap amountRE 1 ceComma = some [','] ∧
    pyFloatOk (amountTok [',']) = false ∧
    processBlock 0 ⟨some ceComma⟩ = none := by
  have hmem : txA ∈ parse_html_content docThree := by
    rw [parse_docThree]; exact List.mem_cons_self txA [txB, txC]
  have h1 := claim_C1_amended.1 docThree txA hmem
  have h2 := claim_C1_amended.2 0 ⟨some ceComma⟩ ceComma [','] rfl (by decide) (by decide)
  exact ⟨hmem, h1.1, h1.2, rfl, by decide, by decide, h2⟩

/-- Claim C2, amended: a block contributes a record iff its text is present,
the three mandatory patterns match, the amount token parses as a float (a
comma-only token does not), and the date triple forms a real calendar date.
Each block contributes at most one record (the extraction is a per-block
`filterMap`, so one block's failure cannot affect another block, and the
call is total — an empty list is the worst outcome). -/
theorem claim_C2_amended :
    (∀ blocks : List Block, parse_html_content blocks =
        blocks.enum.filterMap (fun x => processBlock x.1 x.2)) ∧
    (∀ blocks : List Block, (parse_html_content blocks).length ≤ blocks.length) ∧
    (∀ (i : Nat) (b : Block), b.mainText = none → processBlock i b = none) ∧
    (∀ (i : Nat) (b : Block) (text : String), b.mainText = some text →
      ((processBlock i b).isSome ↔
        ∃ ga gr gd gm gy y m d,
          searchCap amountRE 1 text = some ga ∧
          searchCap recipientRE 1 text = some gr ∧
          searchCap dateRE 1 text = some gd ∧
          searchCap dateRE 2 text = some gm ∧
          searchCap dateRE 3 text = some gy ∧
          pyFloatOk (amountTok ga) = true ∧
          strptime_d_b_Y gd gm gy = some (y, m, d))) := by
  refine ⟨fun _ => rfl, ?_, fun i b h => by rw [processBlock, h], ?_⟩
  · intro blocks
    calc (parse_html_content blocks).length
        ≤ blocks.enum.length := List.length_filterMap_le _ _
      _ = blocks.length := List.enum_length
  · intro i b text htext
    constructor
    · intro hsome
      obtain ⟨r, hr⟩ := Option.isSome_iff_exists.mp hsome
      obtain ⟨text', ga, gr, gd, gm, gy, y, m, d, htext', ha, hrc, hd1, hd2, hd3, hok,
        hstrp, _⟩ := processBlock_inv i b r hr
      rw [htext] at htext'
      cases htext'
      exact ⟨ga, gr, gd, gm, gy, y, m, d, ha, hrc, hd1, hd2, hd3, hok, hstrp⟩
    · rintro ⟨ga, gr, gd, gm, gy, y, m, d, ha, hrc, hd1, hd2, hd3, hok, hstrp⟩
      simp [processBlock, htext, ha, hrc, hd1, hd2, hd3, hok, hstrp]

/-- Claim C2 as frozen is false: on `"You paid ₹, to X on 15 Nov 2024"` the
amount, recipient and date patterns all match and the date triple is a real
calendar date, yet the block contributes no record (`float('')` raises). -/
theorem claim_C2_counterexample :
    searchCap amountRE 1 ceComma = some [','] ∧
    searchCap recipientRE 1 ceComma = some ['X'] ∧
    searchCap dateRE 1 ceComma = some "15".data ∧
    searchCap dateRE 2 ceComma = some "Nov".data ∧
    searchCap dateRE 3 ceComma = some "2024".data ∧
    strptime_d_b_Y "15".data "Nov".data "2024".data = some (2024, 11, 15) ∧
    parse_html_content [⟨some ceComma⟩] = [] := by
  decide

theorem claim_C2_witness :
    (⟨some ceRam⟩ : Block).mainText = some ceRam ∧
    ((processBlock 0 (⟨some ceRam⟩ : Block)).isSome ↔
      ∃ ga gr gd gm gy y m d,
        searchCap amountRE 1 ceRam = some ga ∧
        searchCap recipientRE 1 ceRam = some gr ∧
        searchCap dateRE 1 ceRam = some gd ∧
        searchCap dateRE 2 ceRam = some gm ∧
        searchCap dateRE 3 ceRam = some gy ∧
        pyFloatOk (amountTok ga) = true ∧
        strptime_d_b_Y gd gm gy = some (y, m, d)) :=
  ⟨rfl, claim_C2_amended.2.2.2 0 ⟨some ceRam⟩ ceRam rfl⟩

/-- Claim C3, confirmed: on the three-sentence document the extraction
returns exactly three records with the stated amounts, dates and recipients
(in block order, with positional ids), and the aggregation over them reports
total `435.5`, average `871/6 = 145.1666...`, count `3` and date range
`("2024-11-13", "2024-11-15")`. -/
theorem claim_C3 :
    (parse_html_content docThree).map Txn.recipient = ["Swiggy", "Zomato", "Amazon"] ∧
    (parse_html_content docThree).map Txn.date =
      ["2024-11-15", "2024-11-14", "2024-11-13"] ∧
    (parse_html_content docThree).map Txn.id = ["tx_0", "tx_1", "tx_2"] ∧
    (parse_html_content docThree).map Txn.amount = [150, 85.5, 200] ∧
    analyze_transaction_data (parse_html_content docThree) =
      .ok { total_spend := 435.5, average_transaction := 871 / 6,
            transaction_count := 3, date_range_start := "2024-11-13",
            date_range_end := "2024-11-15" } := by
  refine ⟨by decide, by decide, by decide, ?_, ?_⟩
  · rw [parse_docThree]
    simp only [List.map_cons, List.map_nil, txA_amount, txB_amount, txC_amount]
    norm_num
  · rw [parse_docThree]
    have hs : List.foldl
        (fun acc x => if listLe acc.data x.date.data then acc else x.date)
        txA.date [txB, txC] = "2024-11-13" := by decide
    have he : List.foldl
        (fun acc x => if listLe acc.data x.date.data then x.date else acc)
        txA.date [txB, txC] = "2024-11-15" := by decide
    simp only [analyze_transaction_data, List.map_cons, List.map_nil, List.sum_cons,
      List.sum_nil, List.length_cons, List.length_nil, hs, he,
      AnalysisResult.ok.injEq, AnalysisSummary.mk.injEq, and_true, true_and]
    constructor
    · rw [txA_amount, txB_amount, txC_amount]; norm_num
    · rw [txA_amount, txB_amount, txC_amount]; norm_num

/-- Claim C4, confirmed: the aggregation on the empty record set returns the
explicit `"No transactions to analyze"` marker — and only then; on any
nonempty set it returns a summary whose count is the (positive) list length,
with the average formed as total divided by that nonzero count. -/
theorem claim_C4 :
    analyze_transaction_data [] = .noTransactions ∧
    (∀ recs : List Txn, analyze_transaction_data recs = .noTransactions ↔ recs = []) ∧
    (∀ (d : Txn) (ds : List Txn), ∃ s, analyze_transaction_data (d :: ds) = .ok s ∧
      s.transaction_count = ds.length + 1 ∧ 0 < s.transaction_count ∧
      s.average_transaction = s.total_spend / (s.transaction_count : ℚ)) := by
  refine ⟨rfl, ?_, ?_⟩
  · intro recs
    cases recs with
    | nil => simp [analyze_transaction_data]
    | cons d ds =>
      simp only [analyze_transaction_data]
      constructor
      · intro h; exact absurd h (by simp)
      · intro h; exact absurd h (by simp)
  · intro d ds
    refine ⟨_, rfl, ?_, ?_, ?_⟩
    · simp [analyze_transaction_data]
    · simp [analyze_transaction_data]
    · simp [analyze_transaction_data]

/-- Claim C5, amended: every selector other than the exact string `"all"`
yields a fixed-size prefix of the stable date-descending sort, with window 30
for `"month"`-containing selectors (90 only when the *raw* selector contains
`"three"` or `"3"` — this subcheck is case-sensitive, so `"Three Months"`
gets 30), 7 for `"week"`, 365 for `"year"`, and 30 otherwise; the
month/week/year tokens are matched case-insensitively.  `"one week"` returns
exactly `min 7 (len recs)` records. -/
theorem claim_C5_amended :
    (∀ (recs : List Txn) (tf : String), tf ≠ "all" →
        filter_by_timeframe recs tf = (sortDesc recs).take (windowSize tf)) ∧
    (∀ recs : List Txn, List.Sorted dateGE (sortDesc recs)) ∧
    (∀ recs : List Txn, (filter_by_timeframe recs "one week").length = min 7 recs.length) ∧
    windowSize "one month" = 30 ∧ windowSize "one week" = 7 ∧
    windowSize "one year" = 365 ∧ windowSize "three months" = 90 ∧
    windowSize "3 months" = 90 ∧ windowSize "unrecognized" = 30 ∧
    windowSize "Three Months" = 30 := by
  refine ⟨filter_eq_take, fun recs => List.sorted_insertionSort dateGE recs, ?_,
    by decide, by decide, by decide, by decide, by decide, by decide, by decide⟩
  intro recs
  rw [filter_eq_take recs "one week" (by decide),
    show windowSize "one week" = 7 from by decide, List.length_take, sortDesc,
    (List.perm_insertionSort dateGE recs).length_eq]

/-- Claim C5 as frozen is false: it requires all selector matching to be
case-insensitive, but the `"three"`/`"3"` subcheck tests the raw selector, so
`"Three Months"` (which case-insensitively contains both `"month"` and
`"three"`) yields the 30-window, not the claimed 90-window. -/
theorem claim_C5_counterexample :
    strContains (lowerStr "Three Months") "month" = true ∧
    strContains (lowerStr "Three Months") "three" = true ∧
    (filter_by_timeframe recs31 "Three Months").length = 30 ∧
    ((sortDesc recs31).take 90).length = 31 ∧
    filter_by_timeframe recs31 "Three Months" ≠ (sortDesc recs31).take 90 := by
  have hlen : recs31.length = 31 := by simp [recs31]
  have hslen : (sortDesc recs31).length = 31 := by
    rw [sortDesc, (List.perm_insertionSort dateGE recs31).length_eq, hlen]
  have h30 : (filter_by_timeframe recs31 "Three Months").length = 30 := by
    rw [filter_eq_take recs31 "Three Months" (by decide),
      show windowSize "Three Months" = 30 from by decide, List.length_take, hslen]
    omega
  have h31 : ((sortDesc recs31).take 90).length = 31 := by
    rw [List.length_take, hslen]
    omega
  refine ⟨by decide, by decide, h30, h31, fun hcontra => ?_⟩
  rw [hcontra, h31] at h30
  exact absurd h30 (by decide)

theorem claim_C5_witness :
    ("one week" : String) ≠ "all" ∧
    filter_by_timeframe recs31 "one week" =
      (sortDesc recs31).take (windowSize "one week") :=
  ⟨by decide, claim_C5_amended.1 recs31 "one week" (by decide)⟩

/-- Claim C6, amended: only the selector *exactly* equal to `"all"` is the
identity (the check is `timeframe == "all"`); any other selector containing
`"all"` — e.g. `"ALL"` — is not special and falls through to the ordinary
vocabulary rules (default window 30). -/
theorem claim_C6_amended :
    (∀ recs : List Txn, filter_by_timeframe recs "all" = recs) ∧
    (∀ (recs : List Txn) (tf : String), tf ≠ "all" →
        strContains (lowerStr tf) "all" = true →
        filter_by_timeframe recs tf = (sortDesc recs).take (windowSize tf)) ∧
    (∀ recs : List Txn, filter_by_timeframe recs "ALL" = (sortDesc recs).take 30) := by
  refine ⟨fun recs => by rw [filter_by_timeframe]; simp,
    fun recs tf h _ => filter_eq_take recs tf h, fun recs => ?_⟩
  rw [filter_eq_take recs "ALL" (by decide), show windowSize "ALL" = 30 from by decide]

/-- Claim C6 as frozen is false: `"ALL"` case-insensitively contains `"all"`
but is not the identity — on 31 records it returns the 30 most recent. -/
theorem claim_C6_counterexample :
    strContains (lowerStr "ALL") "all" = true ∧
    (filter_by_timeframe recs31 "ALL").length = 30 ∧ recs31.length = 31 ∧
    filter_by_timeframe recs31 "ALL" ≠ recs31 := by
  have hlen : recs31.length = 31 := by simp [recs31]
  have hslen : (sortDesc recs31).length = 31 := by
    rw [sortDesc, (List.perm_insertionSort dateGE recs31).length_eq, hlen]
  have h30 : (filter_by_timeframe recs31 "ALL").length = 30 := by
    rw [filter_eq_take recs31 "ALL" (by decide),
      show windowSize "ALL" = 30 from by decide, List.length_take, hslen]
    omega
  refine ⟨by decide, h30, hlen, fun hcontra => ?_⟩
  rw [hcontra, hlen] at h30
  exact absurd h30 (by decide)

theorem claim_C6_witness :
    ("ALL" : String) ≠ "all" ∧ strContains (lowerStr "ALL") "all" = true ∧
    filter_by_timeframe recs31 "ALL" = (sortDesc recs31).take (windowSize "ALL") :=
  ⟨by decide, by decide, claim_C6_amended.2.1 recs31 "ALL" (by decide) (by decide)⟩

/-- Claim C9, confirmed: the filter call returns the analyzer state (its held
batch) unchanged — the method never assigns `self.transactions` — and on an
empty batch every selector returns the empty list. -/
theorem claim_C9 :
    (∀ (a : GPPayAnalyzer) (tf : String), (a.filterByTimeframe tf).2 = a ∧
       (a.filterByTimeframe tf).1 = filter_by_timeframe a.transactions tf) ∧
    (∀ tf : String, filter_by_timeframe [] tf = []) := by
  refine ⟨fun a tf => ⟨rfl, rfl⟩, fun tf => ?_⟩
  rw [filter_by_timeframe]
  split
  · rfl
  · simp

/-- Claim C10, confirmed: the date-descending sort is stable, so records with
equal dates appear in any non-`"all"` filtered output as a subsequence of
their original relative order. -/
theorem claim_C10 (recs : List Txn) (tf d : String) (h : tf ≠ "all") :
    ((filter_by_timeframe recs tf).filter (fun r => r.date == d)).Sublist
      (recs.filter (fun r => r.date == d)) := by
  rw [filter_eq_take recs tf h]
  have h1 : ((sortDesc recs).take (windowSize tf)).Sublist (sortDesc recs) :=
    List.take_sublist _ _
  have h2 := h1.filter (fun r => r.date == d)
  have hp : ∀ a b : Txn, (a.date == d) = true → (b.date == d) = true → dateGE a b :=
    fun _ _ ha hb => le_of_eq ((eq_of_beq hb).trans (eq_of_beq ha).symm)
  rwa [filter_sortDesc (fun r => r.date == d) recs hp] at h2

theorem claim_C10_witness :
    ("one week" : String) ≠ "all" ∧
    ((filter_by_timeframe recs31 "one week").filter
        (fun r => r.date == "2024-01-05")).Sublist
      (recs31.filter (fun r => r.date == "2024-01-05")) :=
  ⟨by decide, claim_C10 recs31 "one week" "2024-01-05" (by decide)⟩

/-- Claim C7, amended: the recipient of every emitted record is the stripped
text captured strictly between a `to` followed by whitespace and a later
whitespace-preceded `using` or `on` *substring* — the terminator (and the
`to` itself) need not be a whole whitespace-delimited word, so e.g. the `on`
at the start of `only` can end the capture. -/
theorem claim_C7_amended (i : Nat) (b : Block) (text : String) (r : Txn)
    (hb : b.mainText = some text) (h : processBlock i b = some r) :
    ∃ pre ws1 g ws2 mk rest,
      text.data = pre ++ "to".data ++ ws1 ++ g ++ ws2 ++ mk ++ rest ∧
      ws1 ≠ [] ∧ (∀ c ∈ ws1, pySpace c = true) ∧
      g ≠ [] ∧ (∀ c ∈ g, notNL c = true) ∧
      ws2 ≠ [] ∧ (∀ c ∈ ws2, pySpace c = true) ∧
      (mk = "using".data ∨ mk = "on".data) ∧
      r.recipient = (⟨pyStrip g⟩ : String) := by
  obtain ⟨text', ga, gr, gd, gm, gy, y, m, d, hb', _, hrc, _, _, _, _, _, hreq⟩ :=
    processBlock_inv i b r h
  rw [hb] at hb'
  injection hb' with he
  subst he
  obtain ⟨pre, ws1, ws2, mk, rest, hsplit, h1, h2, h3, h4, h5, h6, h7⟩ :=
    recipient_decomp text gr hrc
  subst hreq
  exact ⟨pre, ws1, gr, ws2, mk, rest, hsplit, h1, h2, h3, h4, h5, h6, h7, rfl⟩

/-- Claim C7 as frozen is false: on
`"You paid ₹50 to Ram only Stores using UPI on 15 Nov 2024"` the emitted
recipient is `"Ram"` (the capture stops at the whitespace-preceded `on`
inside `only`), while whole-word marker anchoring as claimed would give
`"Ram only Stores"`. -/
theorem claim_C7_counterexample :
    (parse_html_content [⟨some ceRam⟩]).map Txn.recipient = ["Ram"] ∧
    recipientSpecWord ceRam = some "Ram only Stores" ∧
    ("Ram" : String) ≠ "Ram only Stores" := by
  decide

theorem claim_C7_witness :
    (⟨some ceRam⟩ : Block).mainText = some ceRam ∧
    processBlock 0 ⟨some ceRam⟩ = some txRam ∧
    ∃ pre ws1 g ws2 mk rest,
      ceRam.data = pre ++ "to".data ++ ws1 ++ g ++ ws2 ++ mk ++ rest ∧
      ws1 ≠ [] ∧ (∀ c ∈ ws1, pySpace c = true) ∧
      g ≠ [] ∧ (∀ c ∈ g, notNL c = true) ∧
      ws2 ≠ [] ∧ (∀ c ∈ ws2, pySpace c = true) ∧
      (mk = "using".data ∨ mk = "on".data) ∧
      txRam.recipient = (⟨pyStrip g⟩ : String) :=
  ⟨rfl, parse_ceRam, claim_C7_amended 0 ⟨some ceRam⟩ ceRam txRam rfl parse_ceRam⟩

/-- Claim C8, amended: the emitted payment method is the stripped capture of
the method pattern when it matches — text drawn from the restricted class
`[A-Za-z0-9 \-&()/.]` after `using` + whitespace, terminated by a
whitespace-preceded `X`/`x` run or by (whitespace and) the end of string —
and the sentinel `"UPI"` is used whenever the pattern fails, which can
happen even though a `using` marker is present (e.g. when the following text
contains a character outside the class, such as a comma). -/
theorem claim_C8_amended (i : Nat) (b : Block) (text : String) (r : Txn)
    (hb : b.mainText = some text) (h : processBlock i b = some r) :
    (searchCap methodRE 1 text = none ∧ r.payment_method = "UPI") ∨
    (∃ g pre ws1 tail,
      searchCap methodRE 1 text = some g ∧
      r.payment_method = (⟨pyStrip g⟩ : String) ∧
      text.data = pre ++ "using".data ++ ws1 ++ g ++ tail ∧
      ws1 ≠ [] ∧ (∀ c ∈ ws1, pySpace c = true) ∧
      g ≠ [] ∧ (∀ c ∈ g, methodCls c = true) ∧
      ((∃ ws2 xs rest2, tail = ws2 ++ xs ++ rest2 ∧ ws2 ≠ [] ∧
          (∀ c ∈ ws2, pySpace c = true) ∧ xs ≠ [] ∧ (∀ c ∈ xs, isXx c = true)) ∨
       (∃ ws2 rest2, tail = ws2 ++ rest2 ∧ (∀ c ∈ ws2, pySpace c = true) ∧
          (rest2 = [] ∨ rest2 = ['\n'])))) := by
  obtain ⟨text', ga, gr, gd, gm, gy, y, m, d, hb', _, _, _, _, _, _, _, hreq⟩ :=
    processBlock_inv i b r h
  rw [hb] at hb'
  injection hb' with he
  subst he
  subst hreq
  cases hm : searchCap methodRE 1 text with
  | none =>
    left
    exact ⟨rfl, by simp [methodField, hm]⟩
  | some g =>
    right
    obtain ⟨pre, ws1, tail, hsplit, h1, h2, h3, h4, h5⟩ := method_decomp text g hm
    exact ⟨g, pre, ws1, tail, rfl, by simp [methodField, hm], hsplit, h1, h2, h3, h4, h5⟩

/-- Claim C8 as frozen is false: on
`"You paid ₹50 to Alice using HDFC, Bank on 15 Nov 2024"` the comma is
outside the method character class, so the pattern fails and the record
carries the sentinel `"UPI"` — while the claim's words (text after the
`using` marker up to an X-run or the end) would give
`"HDFC, Bank on 15 Nov 2024"`. -/
theorem claim_C8_counterexample :
    (parse_html_content [⟨some ceBank⟩]).map Txn.payment_method = ["UPI"] ∧
    searchCap methodRE 1 ceBank = none ∧
    methodSpecClaim ceBank = some "HDFC, Bank on 15 Nov 2024" ∧
    ("UPI" : String) ≠ "HDFC, Bank on 15 Nov 2024" := by
  decide

theorem claim_C8_witness :
    (⟨some ceMask⟩ : Block).mainText = some ceMask ∧
    processBlock 0 ⟨some ceMask⟩ = some txMask ∧
    txMask.payment_method = "HDFC Bank" ∧
    ((searchCap methodRE 1 ceMask = none ∧ txMask.payment_method = "UPI") ∨
     (∃ g pre ws1 tail,
       searchCap methodRE 1 ceMask = some g ∧
       txMask.payment_method = (⟨pyStrip g⟩ : String) ∧
       ceMask.data = pre ++ "using".data ++ ws1 ++ g ++ tail ∧
       ws1 ≠ [] ∧ (∀ c ∈ ws1, pySpace c = true) ∧
       g ≠ [] ∧ (∀ c ∈ g, methodCls c = true) ∧
       ((∃ ws2 xs rest2, tail = ws2 ++ xs ++ rest2 ∧ ws2 ≠ [] ∧
           (∀ c ∈ ws2, pySpace c = true) ∧ xs ≠ [] ∧ (∀ c ∈ xs, isXx c = true)) ∨
        (∃ ws2 rest2, tail = ws2 ++ rest2 ∧ (∀ c ∈ ws2, pySpace c = true) ∧
           (rest2 = [] ∨ rest2 = ['\n']))))) :=
  ⟨rfl, parse_ceMask, rfl, claim_C8_amended 0 ⟨some ceMask⟩ ceMask txMask rfl parse_ceMask⟩
